import Mathlib

/-!
Verification of the VAE training script (src/main.py).

The script trains a convolutional VAE on CIFAR-10.  We shallowly embed the
parts the specification talks about:

* the loss function (src/main.py lines 54-67): binary cross entropy,
  mean squared error, and the closed-form Gaussian KL term, all with sum
  reduction.  Tensors are flattened to lists of reals, since every reduction
  in the source is a sum over all elements; the `x.view(-1, 3072)` reshape
  does not change the element sequence and is therefore the identity here.
  `F.binary_cross_entropy` raises when an input value lies outside [0, 1],
  so it is embedded as an `Option`-valued function; an exception anywhere
  aborts the run, so the loops are `Option`-valued folds.
* the data loaders (lines 37-46), recording which dataset object each loader
  is built from.
* the training loop `train` (lines 70-94), the evaluation loop `test`
  (lines 97-113) and the `__main__` epoch loop (lines 116-126), as explicit
  state-passing functions over a model state.  The model itself lives in
  `models.py`, which is not part of the sources; following the specification
  (sections 4.1-4.3) the forward pass and the decoder are side-effect-free
  functions of the learnable weights, so they are taken as parameters
  `fwd`/`dec`, and the optimizer step as a parameter `step`.
* file writes and the per-epoch unconditional sampling (lines 119-126) as an
  event trace.
-/

namespace TorchVAE

/-- The argparse options of src/main.py lines 13-28. -/
structure Args where
  batch_size : Nat
  epochs : Nat
  no_cuda : Bool
  seed : Nat
  log_interval : Nat
  recon_loss : String

/-- The argparse default values (src/main.py lines 14-25):
batch-size 128, epochs 100, no-cuda false, seed 1, log-interval 10,
recon_loss "BCE". -/
def defaultArgs : Args := ⟨128, 100, false, 1, 10, "BCE"⟩

/-- A labelled image dataset: CIFAR-10 images are 3 x 32 x 32 tensors,
flattened here to lists of 3072 reals, with an integer class label each. -/
structure Dataset where
  images : List (List ℝ)
  labels : List Nat

/-- A torch DataLoader, as far as the script observes it: the dataset object
it serves batches from, the batch size, and the shuffle flag. -/
structure DataLoader where
  dataset : Dataset
  batch_size : Nat
  shuffle : Bool

/-- src/main.py lines 40-42: the training loader is built directly from the
module-level `cifar_dataset` object (lines 37-38), which is loaded from disk
and hence supplied here as an argument. -/
def train_loader (args : Args) (cifar_dataset : Dataset) : DataLoader :=
  ⟨cifar_dataset, args.batch_size, true⟩

/-- src/main.py lines 44-46: the test loader is built from the very same
`cifar_dataset` object as the training loader. -/
def test_loader (args : Args) (cifar_dataset : Dataset) : DataLoader :=
  ⟨cifar_dataset, args.batch_size, true⟩

/-- One summand of `F.binary_cross_entropy` with sum reduction:
for input value r and target value t, the value -(t * log r + (1 - t) * log (1 - r)).
Real.log is total (log of a nonpositive number is 0), which agrees with the
mathematical binary cross entropy on inputs strictly inside (0, 1). -/
noncomputable def bceTerm (r t : ℝ) : ℝ :=
  -(t * Real.log r + (1 - t) * Real.log (1 - r))

/-- Embedding of `F.binary_cross_entropy(input, target, reduction='sum')`
(called at src/main.py line 56).  PyTorch raises an error when any input
value lies outside [0, 1]; this is the `none` branch.  Otherwise it returns
the sum of the per-element cross entropies. -/
noncomputable def binary_cross_entropy (input target : List ℝ) : Option ℝ :=
  if ∀ r ∈ input, 0 ≤ r ∧ r ≤ 1 then
    some (List.zipWith bceTerm input target).sum
  else
    none

/-- Embedding of `F.mse_loss(input, target, reduction='sum')`
(called at src/main.py line 57): the sum of squared differences. -/
def mse_loss (input target : List ℝ) : ℝ :=
  (List.zipWith (fun r t => (r - t) ^ 2) input target).sum

/-- Embedding of src/main.py line 62:
`KLD = -0.5 * torch.sum(1 + logvar - mu.pow(2) - logvar.exp())`.
`mu` and `logvar` are the flattened batch-size x latent-dim tensors. -/
noncomputable def KLD (mu logvar : List ℝ) : ℝ :=
  -0.5 * (List.zipWith (fun m l => 1 + l - m ^ 2 - Real.exp l) mu logvar).sum

/-- Embedding of `loss_function` (src/main.py lines 54-67).  The source
computes BCE, MSE and KLD unconditionally, in that order, before consulting
`recon_type`; since only the BCE evaluation can raise, the whole call fails
exactly when the BCE range check fails, whatever `recon_type` is.  The
source gives `recon_type` the default value "BCE"; every call site in the
script passes `recon_type='MSE'` explicitly. -/
noncomputable def loss_function (recon_x x mu logvar : List ℝ)
    (recon_type : String) : Option ℝ :=
  match binary_cross_entropy recon_x x with
  | none => none
  | some BCE =>
      if recon_type = "BCE" then some (BCE + KLD mu logvar)
      else some (mse_loss recon_x x + KLD mu logvar)

/-- The KL term as the specification words it (spec sections 4.4 and 8):
-0.5 times the sum, over all latent dimensions and all examples (indexed
here by position in the flattened tensors), of
(1 + logvar_i - mu_i^2 - exp(logvar_i)) — summed, not averaged.  This
definition follows the spec text; `KLD` above follows the source, and the
two are compared in the theorems. -/
noncomputable def KL_spec (mu logvar : List ℝ) : ℝ :=
  -0.5 * ∑ i ∈ Finset.range mu.length,
    (1 + logvar.getD i 0 - (mu.getD i 0) ^ 2 - Real.exp (logvar.getD i 0))

/-- Replace the parsed `--recon_loss` option value, keeping every other
option: used to quantify over the flag's value. -/
def Args.setReconLoss (a : Args) (s : String) : Args :=
  ⟨a.batch_size, a.epochs, a.no_cuda, a.seed, a.log_interval, s⟩

/-- The model state visible to src/main.py: the learnable weights of the
encoder and decoder (an opaque flat list of reals), and the train/eval mode
flag toggled by `model.train()` and `model.eval()`. -/
structure Model where
  params : List ℝ
  training : Bool

/-- `model.train()` (src/main.py line 71): set the mode flag, keep weights. -/
def Model.trainMode (m : Model) : Model := ⟨m.params, true⟩

/-- `model.eval()` (src/main.py line 98): clear the mode flag, keep weights. -/
def Model.evalMode (m : Model) : Model := ⟨m.params, false⟩

/-- Observable side effects of the loops: epoch markers for the calls to
`train(epoch)` and `test(epoch)`, the reconstruction-comparison image saved
by `test` (src/main.py lines 105-110, recording the path, the originals, the
reconstructions and the row count n), and the unconditional-sample image
saved at the end of each epoch (src/main.py lines 122-126). -/
inductive Event where
  | trainRun (epoch : Nat)
  | testRun (epoch : Nat)
  | saveRecon (path : String) (data recon_batch : List ℝ) (n : Nat)
  | saveSample (path : String) (image : List (List ℝ))

/-- Modelled from the spec (section 4.7 and src/main.py line 123):
`torch.randn(rows, cols)` produces a rows x cols array of draws from a
standard normal distribution.  The randomness is external; it is supplied
as an oracle `g` giving the value at each position, and only the shape of
the result is meaningful to the embedding. -/
def randn (g : Nat → Nat → ℝ) (rows cols : Nat) : List (List ℝ) :=
  (List.range rows).map fun i => (List.range cols).map fun j => g i j

/-- Embedding of `train(epoch)` (src/main.py lines 70-94), parameterized by
the model forward pass `fwd` (modelled from the spec, section 4.1-4.2:
`model(data)` returns (reconstruction, mu, logvar) as a pure function of the
weights) and by the gradient update `step` (the combined
`loss.backward(); optimizer.step()` of lines 81-83, an opaque update of the
weights from the current model and batch).  The loop sets training mode,
then folds over the epoch's batches, accumulating `train_loss`; the call to
`loss_function` at line 80 passes `recon_type='MSE'`.  A raised exception
(loss_function returning none) aborts the run.  The constructed-but-never-
stepped scheduler (line 74) and the log lines have no effect on this state.
Returns the updated model and the accumulated training loss. -/
noncomputable def train (fwd : Model → List ℝ → List ℝ × List ℝ × List ℝ)
    (step : Model → List ℝ → Model) (args : Args)
    (batches : List (List ℝ)) (model : Model) : Option (Model × ℝ) :=
  batches.foldl
    (fun acc data =>
      match acc with
      | none => none
      | some (m, train_loss) =>
          match fwd m data with
          | (recon_batch, mu, logvar) =>
              match loss_function recon_batch data mu logvar "MSE" with
              | none => none
              | some l => some (step m data, train_loss + l))
    (some (model.trainMode, 0))

/-- The reconstruction-comparison file path of src/main.py line 110. -/
def reconPath (timestring : String) (epoch : Nat) : String :=
  "results_c/reconstruction_" ++ timestring ++ toString epoch ++ ".png"

/-- The unconditional-sample file path of src/main.py line 126. -/
def samplePath (timestring : String) (epoch : Nat) : String :=
  "results_c/sample_" ++ timestring ++ toString epoch ++ ".png"

/-- Embedding of `test(epoch)` (src/main.py lines 97-113).  The loop sets
evaluation mode, disables gradient tracking, folds over the evaluation
batches accumulating `test_loss` with the same `recon_type='MSE'` call
(line 104), and on the first batch (i == 0) saves a side-by-side comparison
of the first n = min(batch examples, 8) originals and reconstructions.  No
optimizer step runs, so the fold never replaces the model state.  Returns
the model as the loop leaves it, the accumulated loss, and the emitted save
events. -/
noncomputable def test (fwd : Model → List ℝ → List ℝ × List ℝ × List ℝ)
    (args : Args) (timestring : String) (epoch : Nat)
    (batches : List (List ℝ)) (model : Model) :
    Option (Model × ℝ × List Event) :=
  match batches.enum.foldl
    (fun acc p =>
      match acc with
      | none => none
      | some (test_loss, evs) =>
          match fwd model.evalMode p.2 with
          | (recon_batch, mu, logvar) =>
              match loss_function recon_batch p.2 mu logvar "MSE" with
              | none => none
              | some l =>
                  some (test_loss + l,
                    if p.1 = 0 then
                      evs ++ [Event.saveRecon (reconPath timestring epoch)
                        p.2 recon_batch (min (p.2.length / 3072) 8)]
                    else evs))
    (some ((0 : ℝ), ([] : List Event))) with
  | none => none
  | some (tl, evs) => some (model.evalMode, tl, evs)

/-- Embedding of one iteration of the `__main__` loop (src/main.py lines
119-126), parameterized additionally by the decoder `dec` (modelled from the spec,
section 4.3: `model.decode` maps a batch of latent vectors to a batch of
images as a pure function of the weights), by the per-epoch batch streams of
the two shuffling loaders, and by the per-epoch noise oracle `g` feeding
`torch.randn(64, 128)`.  For each epoch from 1 to args.epochs, in order:
run `train(epoch)`, run `test(epoch)`, then draw the 64 x 128 standard
normal sample, decode it (no encoder involved) and save it under the
timestamp-and-epoch file name.  The `sample.view(64, 3, 32, 32)` reshape
before saving does not change the element sequence. -/
noncomputable def epochBody (fwd : Model → List ℝ → List ℝ × List ℝ × List ℝ)
    (step : Model → List ℝ → Model) (dec : Model → List (List ℝ) → List (List ℝ))
    (args : Args) (g : Nat → Nat → Nat → ℝ) (timestring : String)
    (trainBatches testBatches : Nat → List (List ℝ))
    (acc : Option (Model × List Event)) (epoch : Nat) :
    Option (Model × List Event) :=
  match acc with
  | none => none
  | some (m, evs) =>
      match train fwd step args (trainBatches epoch) m with
      | none => none
      | some (m1, _) =>
          match test fwd args timestring epoch (testBatches epoch) m1 with
          | none => none
          | some (m2, _, tev) =>
              some (m2,
                evs ++ Event.trainRun epoch :: Event.testRun epoch :: tev ++
                  [Event.saveSample (samplePath timestring epoch)
                    (dec m2 (randn (g epoch) 64 128))])

/-- The driver folds `epochBody` over the epoch numbers 1, ..., args.epochs,
starting from the freshly constructed model and an empty event trace. -/
noncomputable def mainLoop (fwd : Model → List ℝ → List ℝ × List ℝ × List ℝ)
    (step : Model → List ℝ → Model) (dec : Model → List (List ℝ) → List (List ℝ))
    (args : Args) (g : Nat → Nat → Nat → ℝ) (timestring : String)
    (trainBatches testBatches : Nat → List (List ℝ)) (model : Model) :
    Option (Model × List Event) :=
  (List.range' 1 args.epochs).foldl
    (epochBody fwd step dec args g timestring trainBatches testBatches)
    (some (model, []))

/-! Shared helper lemmas. -/

/-- Every element of a zipWith comes from a pair of elements of the inputs. -/
theorem exists_of_mem_zipWith {α β γ : Type*} {f : α → β → γ} {l₁ : List α}
    {l₂ : List β} {z : γ} (hz : z ∈ List.zipWith f l₁ l₂) :
    ∃ a ∈ l₁, ∃ b ∈ l₂, z = f a b := by
  induction l₁ generalizing l₂ with
  | nil => simp at hz
  | cons a l ih =>
      cases l₂ with
      | nil => simp at hz
      | cons b l' =>
          simp only [List.zipWith_cons_cons, List.mem_cons] at hz
          rcases hz with h | h
          · exact ⟨a, List.mem_cons_self a l, b, List.mem_cons_self b l', h⟩
          · obtain ⟨x, hx, y, hy, he⟩ := ih h
            exact ⟨x, List.mem_cons_of_mem a hx, y, List.mem_cons_of_mem b hy, he⟩

/-- A sum over a zipWith of equal-length lists is a sum over positions. -/
theorem sum_zipWith_eq_sum_range (f : ℝ → ℝ → ℝ) :
    ∀ {l₁ l₂ : List ℝ}, l₁.length = l₂.length →
      (List.zipWith f l₁ l₂).sum
        = ∑ i ∈ Finset.range l₁.length, f (l₁.getD i 0) (l₂.getD i 0) := by
  intro l₁
  induction l₁ with
  | nil => intro l₂ _; simp
  | cons a l ih =>
      intro l₂ h
      cases l₂ with
      | nil => simp at h
      | cons b l' =>
          simp only [List.length_cons, Nat.succ.injEq] at h
          simp only [List.zipWith_cons_cons, List.sum_cons, List.length_cons]
          rw [Finset.sum_range_succ']
          simp only [List.getD_cons_succ, List.getD_cons_zero]
          rw [ih h]
          ring

/-- When every reconstruction value lies in [0, 1] and the selector is not
the string "BCE", `loss_function` returns the sum-reduced squared error plus
the KL term. -/
theorem loss_function_mse (recon x mu lv : List ℝ) (s : String) (hs : s ≠ "BCE")
    (hin : ∀ r ∈ recon, 0 ≤ r ∧ r ≤ 1) :
    loss_function recon x mu lv s = some (mse_loss recon x + KLD mu lv) := by
  have hb : binary_cross_entropy recon x
      = some (List.zipWith bceTerm recon x).sum := by
    unfold binary_cross_entropy
    rw [if_pos hin]
  simp only [loss_function, hb]
  rw [if_neg hs]

/-! The claims. -/

/-- C2: for every mean tensor and log-variance tensor with matching element
counts, the KL term computed at src/main.py line 62 equals
-0.5 times the sum, over all latent dimensions and all examples, of
(1 + logvar - mu^2 - exp(logvar)), summed — not averaged — across the batch
and the latent dimensions, exactly as the specification's formula states. -/
theorem c2_kl_term_closed_form (mu logvar : List ℝ)
    (h : mu.length = logvar.length) : KLD mu logvar = KL_spec mu logvar := by
  unfold KLD KL_spec
  rw [sum_zipWith_eq_sum_range _ h]

/-- Witness for C2 at mu = [1], logvar = [0]. -/
theorem c2_kl_term_closed_form_witness :
    KLD [(1 : ℝ)] [(0 : ℝ)] = KL_spec [(1 : ℝ)] [(0 : ℝ)] :=
  c2_kl_term_closed_form [(1 : ℝ)] [(0 : ℝ)] rfl

/-- C5: whenever every entry of mu and every entry of logvar is 0 (the
posterior equals the standard normal prior), the KL term of the loss
function evaluates to exactly 0. -/
theorem c5_kl_zero_at_prior (mu logvar : List ℝ)
    (hmu : ∀ v ∈ mu, v = 0) (hlv : ∀ v ∈ logvar, v = 0) :
    KLD mu logvar = 0 := by
  unfold KLD
  have hz : ∀ z ∈ List.zipWith (fun m l => 1 + l - m ^ 2 - Real.exp l) mu logvar,
      z = 0 := by
    intro z hzm
    obtain ⟨a, ha, b, hb, rfl⟩ := exists_of_mem_zipWith hzm
    rw [hmu a ha, hlv b hb]
    norm_num [Real.exp_zero]
  rw [List.sum_eq_zero hz]
  ring

/-- Witness for C5 on a batch of 2 examples with a 1-dimensional latent. -/
theorem c5_kl_zero_at_prior_witness : KLD [(0 : ℝ), 0] [(0 : ℝ), 0] = 0 :=
  c5_kl_zero_at_prior [(0 : ℝ), 0] [(0 : ℝ), 0]
    (fun v hv => by
      rcases List.mem_cons.mp hv with h | h
      · exact h
      · exact List.mem_singleton.mp h)
    (fun v hv => by
      rcases List.mem_cons.mp hv with h | h
      · exact h
      · exact List.mem_singleton.mp h)

/-- C6: on a batch of 2 all-zero 3 x 32 x 32 images (2 x 3072 = 6144 pixel
values), an all-0.5 reconstruction, and mu = 0, logvar = 0 for both
examples (2 x 128 = 256 latent entries), the loss function with the
squared-error metric returns exactly 1536 = 6144 x 0.25, the KL term
contributing 0. -/
theorem c6_end_to_end_loss_1536 :
    loss_function (List.replicate 6144 (1 / 2 : ℝ)) (List.replicate 6144 0)
      (List.replicate 256 0) (List.replicate 256 0) "MSE" = some 1536 := by
  have hin : ∀ r ∈ List.replicate 6144 (1 / 2 : ℝ), 0 ≤ r ∧ r ≤ 1 := by
    intro r hr
    rw [List.eq_of_mem_replicate hr]
    norm_num
  rw [loss_function_mse _ _ _ _ _ (by decide) hin]
  have hmse : mse_loss (List.replicate 6144 (1 / 2 : ℝ)) (List.replicate 6144 0)
      = 1536 := by
    unfold mse_loss
    rw [List.zipWith_replicate]
    rw [List.sum_replicate]
    norm_num
  have hkld : KLD (List.replicate 256 (0 : ℝ)) (List.replicate 256 0) = 0 := by
    unfold KLD
    rw [List.zipWith_replicate]
    rw [List.sum_replicate]
    norm_num [Real.exp_zero]
  rw [hmse, hkld]
  norm_num

/-- C7: on valid inputs (every reconstruction value and every original pixel
value in [0, 1]), the reconstruction term of the loss function is
non-negative for both metrics: the binary cross entropy evaluates (no range
error) to a non-negative sum, and the sum-reduced squared error is
non-negative. -/
theorem c7_recon_loss_nonneg (recon x : List ℝ)
    (hr : ∀ r ∈ recon, 0 ≤ r ∧ r ≤ 1) (hx : ∀ t ∈ x, 0 ≤ t ∧ t ≤ 1) :
    (∃ b, binary_cross_entropy recon x = some b ∧ 0 ≤ b)
    ∧ 0 ≤ mse_loss recon x := by
  constructor
  · refine ⟨(List.zipWith bceTerm recon x).sum, ?_, ?_⟩
    · unfold binary_cross_entropy
      rw [if_pos hr]
    · apply List.sum_nonneg
      intro z hz
      obtain ⟨a, ha, b, hb, rfl⟩ := exists_of_mem_zipWith hz
      obtain ⟨ha0, ha1⟩ := hr a ha
      obtain ⟨hb0, hb1⟩ := hx b hb
      have hlogr : Real.log a ≤ 0 := Real.log_nonpos ha0 ha1
      have hlogr1 : Real.log (1 - a) ≤ 0 :=
        Real.log_nonpos (by linarith) (by linarith)
      have h1 : 0 ≤ b * -Real.log a := mul_nonneg hb0 (by linarith)
      have h2 : 0 ≤ (1 - b) * -Real.log (1 - a) :=
        mul_nonneg (by linarith) (by linarith)
      unfold bceTerm
      nlinarith
  · apply List.sum_nonneg
    intro z hz
    obtain ⟨a, _, b, _, rfl⟩ := exists_of_mem_zipWith hz
    positivity

/-- Witness for C7 at recon = [1/2], x = [1]. -/
theorem c7_recon_loss_nonneg_witness :
    (∃ b, binary_cross_entropy [(1 / 2 : ℝ)] [(1 : ℝ)] = some b ∧ 0 ≤ b)
    ∧ 0 ≤ mse_loss [(1 / 2 : ℝ)] [(1 : ℝ)] :=
  c7_recon_loss_nonneg [(1 / 2 : ℝ)] [(1 : ℝ)]
    (fun r hrm => by
      rw [List.mem_singleton] at hrm
      rw [hrm]
      norm_num)
    (fun t htm => by
      rw [List.mem_singleton] at htm
      rw [htm]
      norm_num)

/-- C9: the metric selector falls back silently to the squared-error metric:
for every selector string other than exactly "BCE" (misspellings and
arbitrary strings included), the loss function behaves exactly as with the
selector "MSE" — in particular, on in-range reconstructions it returns
MSE + KL — and it never rejects the selector itself. -/
theorem c9_selector_silent_fallback (recon x mu lv : List ℝ) (s : String)
    (hs : s ≠ "BCE") :
    loss_function recon x mu lv s = loss_function recon x mu lv "MSE"
    ∧ ((∀ r ∈ recon, 0 ≤ r ∧ r ≤ 1) →
        loss_function recon x mu lv s = some (mse_loss recon x + KLD mu lv)) := by
  constructor
  · unfold loss_function
    cases hb : binary_cross_entropy recon x with
    | none => rfl
    | some v =>
        have hms : ¬("MSE" = "BCE") := by decide
        simp only [if_neg hs, if_neg hms]
  · intro hin
    exact loss_function_mse recon x mu lv s hs hin

/-- Witness for C9 with the misspelt selector "MES". -/
theorem c9_selector_silent_fallback_witness :
    loss_function [(1 / 2 : ℝ)] [(0 : ℝ)] [(0 : ℝ)] [(0 : ℝ)] "MES"
      = loss_function [(1 / 2 : ℝ)] [(0 : ℝ)] [(0 : ℝ)] [(0 : ℝ)] "MSE"
    ∧ ((∀ r ∈ [(1 / 2 : ℝ)], 0 ≤ r ∧ r ≤ 1) →
        loss_function [(1 / 2 : ℝ)] [(0 : ℝ)] [(0 : ℝ)] [(0 : ℝ)] "MES"
          = some (mse_loss [(1 / 2 : ℝ)] [(0 : ℝ)] + KLD [(0 : ℝ)] [(0 : ℝ)])) :=
  c9_selector_silent_fallback [(1 / 2 : ℝ)] [(0 : ℝ)] [(0 : ℝ)] [(0 : ℝ)] "MES"
    (by decide)

/-- C10: the binary cross entropy is evaluated unconditionally, before the
selector is consulted: for every selector value, the loss function call
succeeds exactly when the cross-entropy evaluation succeeds, which happens
exactly when every reconstruction value lies in [0, 1] — so even with the
squared-error metric selected, the call is well-defined only under the
cross-entropy precondition, and the error branch is avoided only under it. -/
theorem c10_bce_evaluated_unconditionally (recon x mu lv : List ℝ) (s : String) :
    ((loss_function recon x mu lv s).isSome
        ↔ (binary_cross_entropy recon x).isSome)
    ∧ ((loss_function recon x mu lv s).isSome
        ↔ ∀ r ∈ recon, 0 ≤ r ∧ r ≤ 1) := by
  have hiff : (loss_function recon x mu lv s).isSome
      ↔ ∀ r ∈ recon, 0 ≤ r ∧ r ≤ 1 := by
    by_cases hin : ∀ r ∈ recon, 0 ≤ r ∧ r ≤ 1
    · have hb : binary_cross_entropy recon x
          = some (List.zipWith bceTerm recon x).sum := by
        unfold binary_cross_entropy
        rw [if_pos hin]
      have hsome : (loss_function recon x mu lv s).isSome = true := by
        by_cases hs : s = "BCE" <;> simp [loss_function, hb, hs]
      exact iff_of_true hsome hin
    · have hb : binary_cross_entropy recon x = none := by
        unfold binary_cross_entropy
        rw [if_neg hin]
      have hnone : (loss_function recon x mu lv s).isSome = false := by
        simp [loss_function, hb]
      exact iff_of_false (by simp [hnone]) hin
  have hbiff : (binary_cross_entropy recon x).isSome
      ↔ ∀ r ∈ recon, 0 ≤ r ∧ r ≤ 1 := by
    unfold binary_cross_entropy
    by_cases hin : ∀ r ∈ recon, 0 ≤ r ∧ r ≤ 1
    · rw [if_pos hin]
      exact iff_of_true rfl hin
    · rw [if_neg hin]
      exact iff_of_false (by simp) hin
  refine ⟨?_, hiff⟩
  rw [hiff, hbiff]

/-- C3: the training DataLoader (src/main.py lines 40-42) and the evaluation
DataLoader (lines 44-46) are both constructed from the identical underlying
`cifar_dataset` object (lines 37-38): for every configuration and every
loaded dataset, the two loaders serve batches of the very same dataset —
there is no held-out split. -/
theorem c3_same_dataset_object (args : Args) (cifar_dataset : Dataset) :
    (train_loader args cifar_dataset).dataset
      = (test_loader args cifar_dataset).dataset := rfl

/-- C4: the evaluation loop accumulates the loss over its batches without
touching any learnable weight: whenever `test` returns, the returned model
state carries exactly the parameters of the input model (only the
train/eval mode flag is switched by `model.eval()`). -/
theorem c4_test_preserves_params
    (fwd : Model → List ℝ → List ℝ × List ℝ × List ℝ) (args : Args)
    (ts : String) (epoch : Nat) (batches : List (List ℝ)) (model : Model)
    (m' : Model) (l : ℝ) (evs : List Event)
    (h : test fwd args ts epoch batches model = some (m', l, evs)) :
    m'.params = model.params := by
  unfold test at h
  split at h
  · exact absurd h (by simp)
  · simp only [Option.some.injEq, Prod.mk.injEq] at h
    obtain ⟨h1, -⟩ := h
    rw [← h1]
    rfl

/-- Witness for C4: evaluating with no batches on a model with weights
[1, 2] leaves the weights [1, 2]. -/
theorem c4_test_preserves_params_witness :
    Model.params ⟨[(1 : ℝ), 2], false⟩ = Model.params ⟨[(1 : ℝ), 2], true⟩ :=
  c4_test_preserves_params
    (fun _ _ => (([] : List ℝ), ([] : List ℝ), ([] : List ℝ)))
    defaultArgs "T" 1 [] ⟨[(1 : ℝ), 2], true⟩
    ⟨[(1 : ℝ), 2], false⟩ 0 [] rfl

/-- C1: the recon_loss configuration flag is dead.  For every parsed
configuration and every value s of the --recon_loss option, both the
training loop (src/main.py line 80) and the evaluation loop (line 104) call
`loss_function` with recon_type='MSE' hardcoded, so on a batch whose forward
pass succeeds the accumulated scalar is the squared-error term plus the KL
term, whatever s is. -/
theorem c1_recon_loss_flag_dead (args : Args) (s : String)
    (fwd : Model → List ℝ → List ℝ × List ℝ × List ℝ)
    (step : Model → List ℝ → Model) (m : Model) (d : List ℝ)
    (ts : String) (ep : Nat) (r mu lv r2 mu2 lv2 : List ℝ)
    (h1 : fwd m.trainMode d = (r, mu, lv))
    (h2 : fwd m.evalMode d = (r2, mu2, lv2))
    (hv1 : ∀ a ∈ r, 0 ≤ a ∧ a ≤ 1) (hv2 : ∀ a ∈ r2, 0 ≤ a ∧ a ≤ 1) :
    train fwd step (args.setReconLoss s) [d] m
      = some (step m.trainMode d, mse_loss r d + KLD mu lv)
    ∧ test fwd (args.setReconLoss s) ts ep [d] m
      = some (m.evalMode, mse_loss r2 d + KLD mu2 lv2,
          [Event.saveRecon (reconPath ts ep) d r2 (min (d.length / 3072) 8)]) := by
  have hms : ("MSE" : String) ≠ "BCE" := by decide
  constructor
  · unfold train
    simp only [List.foldl_cons, List.foldl_nil, h1,
      loss_function_mse r d mu lv "MSE" hms hv1, zero_add]
  · unfold test
    simp only [List.enum, List.enumFrom, List.foldl_cons, List.foldl_nil, h2,
      loss_function_mse r2 d mu2 lv2 "MSE" hms hv2, zero_add,
      List.nil_append, if_pos]

/-- Witness for C1 with the flag set to the misspelt value "CBE": a
constant forward pass with an in-range reconstruction on a single
single-pixel batch. -/
theorem c1_recon_loss_flag_dead_witness :
    train (fun _ _ => ([(1 / 2 : ℝ)], [(0 : ℝ)], [(0 : ℝ)])) (fun mm _ => mm)
        (defaultArgs.setReconLoss "CBE") [[(0 : ℝ)]] ⟨[], false⟩
      = some (⟨[], true⟩, mse_loss [(1 / 2 : ℝ)] [(0 : ℝ)] + KLD [(0 : ℝ)] [(0 : ℝ)])
    ∧ test (fun _ _ => ([(1 / 2 : ℝ)], [(0 : ℝ)], [(0 : ℝ)]))
        (defaultArgs.setReconLoss "CBE") "T" 1 [[(0 : ℝ)]] ⟨[], false⟩
      = some (⟨[], false⟩, mse_loss [(1 / 2 : ℝ)] [(0 : ℝ)] + KLD [(0 : ℝ)] [(0 : ℝ)],
          [Event.saveRecon (reconPath "T" 1) [(0 : ℝ)] [(1 / 2 : ℝ)] 0]) :=
  c1_recon_loss_flag_dead defaultArgs "CBE"
    (fun _ _ => ([(1 / 2 : ℝ)], [(0 : ℝ)], [(0 : ℝ)])) (fun mm _ => mm)
    ⟨[], false⟩ [(0 : ℝ)] "T" 1
    [(1 / 2 : ℝ)] [(0 : ℝ)] [(0 : ℝ)] [(1 / 2 : ℝ)] [(0 : ℝ)] [(0 : ℝ)]
    rfl rfl
    (fun a ha => by
      rw [List.mem_singleton] at ha
      rw [ha]
      norm_num)
    (fun a ha => by
      rw [List.mem_singleton] at ha
      rw [ha]
      norm_num)

/-- Folding the epoch body from a failed state stays failed: an exception
in any epoch aborts the whole run. -/
theorem epochBody_foldl_none (fwd : Model → List ℝ → List ℝ × List ℝ × List ℝ)
    (step : Model → List ℝ → Model) (dec : Model → List (List ℝ) → List (List ℝ))
    (args : Args) (g : Nat → Nat → Nat → ℝ) (ts : String)
    (trainB testB : Nat → List (List ℝ)) (es : List Nat) :
    es.foldl (epochBody fwd step dec args g ts trainB testB) none = none := by
  induction es with
  | nil => rfl
  | cons e es ih =>
      rw [List.foldl_cons]
      exact ih

/-- A successful epoch appends, after the events already accumulated, the
train marker, the test marker, the test loop's own save events, and the
unconditional-sample save built by decoding the 64 x 128 normal draw. -/
theorem epochBody_some_elim (fwd : Model → List ℝ → List ℝ × List ℝ × List ℝ)
    (step : Model → List ℝ → Model) (dec : Model → List (List ℝ) → List (List ℝ))
    (args : Args) (g : Nat → Nat → Nat → ℝ) (ts : String)
    (trainB testB : Nat → List (List ℝ)) (m : Model) (evs : List Event)
    (e : Nat) (m1 : Model) (evs1 : List Event)
    (hbody : epochBody fwd step dec args g ts trainB testB (some (m, evs)) e
      = some (m1, evs1)) :
    ∃ tev : List Event,
      evs1 = evs ++ Event.trainRun e :: Event.testRun e :: tev ++
        [Event.saveSample (samplePath ts e) (dec m1 (randn (g e) 64 128))] := by
  simp only [epochBody] at hbody
  cases htr : train fwd step args (trainB e) m with
  | none => simp [htr] at hbody
  | some p =>
      obtain ⟨mt, tl⟩ := p
      simp only [htr] at hbody
      cases hte : test fwd args ts e (testB e) mt with
      | none => simp [hte] at hbody
      | some q =>
          obtain ⟨m2, sl, tev⟩ := q
          simp only [hte] at hbody
          simp only [Option.some.injEq, Prod.mk.injEq] at hbody
          obtain ⟨hm, hevs⟩ := hbody
          subst hm
          exact ⟨tev, hevs.symm⟩

/-- Folding the epoch body over any epoch list produces, in epoch order,
one block of events per epoch, each of the stated shape. -/
theorem mainLoop_trace (fwd : Model → List ℝ → List ℝ × List ℝ × List ℝ)
    (step : Model → List ℝ → Model) (dec : Model → List (List ℝ) → List (List ℝ))
    (args : Args) (g : Nat → Nat → Nat → ℝ) (ts : String)
    (trainB testB : Nat → List (List ℝ)) :
    ∀ (es : List Nat) (m : Model) (evs0 : List Event) (mFin : Model)
      (events : List Event),
      es.foldl (epochBody fwd step dec args g ts trainB testB)
        (some (m, evs0)) = some (mFin, events) →
      ∃ bs : List (Model × List Event), bs.length = es.length ∧
        events = evs0 ++ (es.zip bs).flatMap (fun p =>
          Event.trainRun p.1 :: Event.testRun p.1 :: p.2.2 ++
            [Event.saveSample (samplePath ts p.1)
              (dec p.2.1 (randn (g p.1) 64 128))]) := by
  intro es
  induction es with
  | nil =>
      intro m evs0 mFin events h
      refine ⟨[], rfl, ?_⟩
      simp only [List.foldl_nil, Option.some.injEq, Prod.mk.injEq] at h
      rw [← h.2]
      simp
  | cons e es ih =>
      intro m evs0 mFin events h
      rw [List.foldl_cons] at h
      cases hb : epochBody fwd step dec args g ts trainB testB (some (m, evs0)) e with
      | none =>
          rw [hb, epochBody_foldl_none] at h
          exact absurd h (by simp)
      | some p =>
          obtain ⟨m1, evs1⟩ := p
          rw [hb] at h
          obtain ⟨tev, hevs1⟩ :=
            epochBody_some_elim fwd step dec args g ts trainB testB m evs0 e m1 evs1 hb
          obtain ⟨bs, hlen, hevents⟩ := ih m1 evs1 mFin events h
          refine ⟨(m1, tev) :: bs, by simp [hlen], ?_⟩
          rw [hevents, hevs1]
          simp [List.append_assoc]

/-- C8: for every run that completes, the event trace is exactly, for each
epoch 1, ..., args.epochs in order: the training loop, then the evaluation
loop (with its own save events), then the save of the unconditional-sample
image obtained by decoding — with no encoder involved — a fresh batch of 64
latent vectors of dimension 128 drawn from the standard normal source, the
file name composed of the run timestamp string and the epoch number.  The
drawn batch always has 64 rows of 128 entries. -/
theorem c8_epoch_train_test_sample (fwd : Model → List ℝ → List ℝ × List ℝ × List ℝ)
    (step : Model → List ℝ → Model) (dec : Model → List (List ℝ) → List (List ℝ))
    (args : Args) (g : Nat → Nat → Nat → ℝ) (ts : String)
    (trainB testB : Nat → List (List ℝ)) (m0 mFin : Model) (events : List Event)
    (h : mainLoop fwd step dec args g ts trainB testB m0 = some (mFin, events)) :
    (∃ bs : List (Model × List Event), bs.length = args.epochs ∧
      events = ((List.range' 1 args.epochs).zip bs).flatMap (fun p =>
        Event.trainRun p.1 :: Event.testRun p.1 :: p.2.2 ++
          [Event.saveSample (samplePath ts p.1)
            (dec p.2.1 (randn (g p.1) 64 128))]))
    ∧ ∀ e : Nat, (randn (g e) 64 128).length = 64
        ∧ ∀ row ∈ randn (g e) 64 128, row.length = 128 := by
  constructor
  · unfold mainLoop at h
    obtain ⟨bs, hlen, hevents⟩ :=
      mainLoop_trace fwd step dec args g ts trainB testB
        (List.range' 1 args.epochs) m0 [] mFin events h
    refine ⟨bs, ?_, ?_⟩
    · rw [hlen, List.length_range']
    · rw [hevents]
      simp
  · intro e
    constructor
    · simp [randn]
    · intro row hrow
      simp only [randn, List.mem_map] at hrow
      obtain ⟨i, _, hrw⟩ := hrow
      rw [← hrw]
      simp

/-- Witness for C8: a one-epoch run with empty batch streams, a trivial
forward pass and decoder, and the all-zero noise oracle. -/
theorem c8_epoch_train_test_sample_witness :
    (∃ bs : List (Model × List Event), bs.length = 1 ∧
      [Event.trainRun 1, Event.testRun 1,
        Event.saveSample (samplePath "T" 1) (randn (fun _ _ => (0 : ℝ)) 64 128)]
        = ((List.range' 1 1).zip bs).flatMap (fun p =>
            Event.trainRun p.1 :: Event.testRun p.1 :: p.2.2 ++
              [Event.saveSample (samplePath "T" p.1)
                (randn (fun _ _ => (0 : ℝ)) 64 128)]))
    ∧ ∀ e : Nat, (randn (fun _ _ => (0 : ℝ)) 64 128).length = 64
        ∧ ∀ row ∈ randn (fun _ _ => (0 : ℝ)) 64 128, row.length = 128 :=
  c8_epoch_train_test_sample
    (fun _ _ => (([] : List ℝ), ([] : List ℝ), ([] : List ℝ)))
    (fun mm _ => mm) (fun _ z => z) ⟨128, 1, false, 1, 10, "BCE"⟩
    (fun _ _ _ => (0 : ℝ)) "T" (fun _ => ([] : List (List ℝ)))
    (fun _ => ([] : List (List ℝ))) ⟨[], false⟩ ⟨[], false⟩
    [Event.trainRun 1, Event.testRun 1,
      Event.saveSample (samplePath "T" 1) (randn (fun _ _ => (0 : ℝ)) 64 128)]
    rfl

end TorchVAE
